import Mathlib

/-!
# Verification of the pg_schema_check comparison engine

A shallow embedding of `pkg/compare` (functions `CompareSchemas`,
`compareColumns`, `comparePrimaryKeys`, `compareIndexes`,
`compareForeignKeys`, `compareStringSlices`) and of the data model from
`pkg/schema` (`Schema`, `TableInfo`, `ColumnInfo`, `IndexInfo`,
`ForeignKeyInfo`), together with proofs of the specified properties.

Go maps are modelled as association lists with unique keys: insertion
overwrites the value of an existing key in place (last-seen entry wins,
as in Go), and iteration follows insertion order — a deterministic
refinement of Go's unspecified map iteration order.  None of the
verified properties depends on the iteration order.
-/

namespace PgSchemaCheck

/-- Go struct `schema.ColumnInfo`: one column of a table.  The Go field `Type` is
spelled `Typ` because `Type` is reserved in Lean. -/
structure ColumnInfo where
  Name : String
  Typ : String
  Nullable : Bool
  Default : String
  IsIdentity : Bool
deriving DecidableEq, Repr

/-- Go struct `schema.IndexInfo`: one index of a table. -/
structure IndexInfo where
  Name : String
  Columns : List String
  Unique : Bool
deriving DecidableEq, Repr

/-- Go struct `schema.ForeignKeyInfo`: one foreign-key constraint of a table. -/
structure ForeignKeyInfo where
  Name : String
  Columns : List String
  ReferencedTable : String
  ReferencedColumns : List String
deriving DecidableEq, Repr

/-- Go struct `schema.TableInfo`: the complete structure of one table. -/
structure TableInfo where
  Name : String
  Columns : List ColumnInfo
  PrimaryKeys : List String
  Indexes : List IndexInfo
  ForeignKeys : List ForeignKeyInfo
deriving DecidableEq, Repr

/-- Go struct `schema.Schema`: a Go map from table name to `TableInfo`, modelled as
an association list whose keys are unique (a Go map cannot hold two
entries with the same key). -/
structure Schema where
  Tables : List (String × TableInfo)
  nodupKeys : (Tables.map Prod.fst).Nodup
deriving Repr

/-- Go struct `compare.Difference`: a single difference found between two schemas.
The Go field `Type` is spelled `Typ`. -/
structure Difference where
  Typ : String
  Table : String
  Description : String
deriving DecidableEq, Repr

/-- Insertion into a Go map modelled as an association list: an existing
key has its value overwritten in place, a new key is appended. -/
def goInsert {α : Type} (m : List (String × α)) (k : String) (v : α) :
    List (String × α) :=
  if k ∈ m.map Prod.fst then
    m.map (fun p => if p.1 = k then (k, v) else p)
  else
    m ++ [(k, v)]

/-- Building a Go map from a slice, keyed by `f`, as the loops
`for _, x := range xs { m[f(x)] = x }` do: the last entry with a given
key wins. -/
def goMap {α : Type} (f : α → String) (l : List α) : List (String × α) :=
  l.foldl (fun m x => goInsert m (f x) x) []

/-- Go map lookup `v, ok := m[k]`: the first (hence, with unique keys,
only) entry with key `k`, or `none`. -/
def goFind {α : Type} (m : List (String × α)) (k : String) : Option α :=
  match m with
  | [] => none
  | (k', v) :: rest => if k' = k then some v else goFind rest k

/-- A single-quote character, used by the `fmt.Sprintf` format strings. -/
def sq : String := String.singleton (Char.ofNat 39)

/-- Go `%v` rendering of a boolean. -/
def goBool (b : Bool) : String := if b then "true" else "false"

/-- Go `%v` rendering of a string slice. -/
def goStrs (l : List String) : String := "[" ++ String.intercalate " " l ++ "]"

/-- Go function `compare.compareStringSlices`: positional equality of two string
slices — equal length and equal element at every index. -/
def compareStringSlices (a b : List String) : Bool :=
  if a.length ≠ b.length then false
  else (List.range a.length).all fun i => decide (a.getD i "" = b.getD i "")

/-- Go function `compare.compareColumns`: build name-keyed maps of both column
slices, emit `MissingColumn`/field mismatches for every source entry,
then `ExtraColumn` for every target-only entry. -/
def compareColumns (tableName : String) (source target : List ColumnInfo) :
    List Difference :=
  ((goMap ColumnInfo.Name source).flatMap fun p =>
    match goFind (goMap ColumnInfo.Name target) p.1 with
    | none =>
        [⟨"MissingColumn", tableName,
          "Column " ++ sq ++ p.1 ++ sq ++ " exists in source but not in target"⟩]
    | some targetCol =>
        (if p.2.Typ = targetCol.Typ then [] else
          [⟨"ColumnTypeMismatch", tableName,
            "Column " ++ sq ++ p.1 ++ sq ++ " has different types: source=" ++
              p.2.Typ ++ ", target=" ++ targetCol.Typ⟩]) ++
        (if p.2.Nullable = targetCol.Nullable then [] else
          [⟨"ColumnNullableMismatch", tableName,
            "Column " ++ sq ++ p.1 ++ sq ++ " has different nullable settings: source=" ++
              goBool p.2.Nullable ++ ", target=" ++ goBool targetCol.Nullable⟩]) ++
        (if p.2.Default = targetCol.Default then [] else
          [⟨"ColumnDefaultMismatch", tableName,
            "Column " ++ sq ++ p.1 ++ sq ++ " has different default values: source=" ++
              p.2.Default ++ ", target=" ++ targetCol.Default⟩]) ++
        (if p.2.IsIdentity = targetCol.IsIdentity then [] else
          [⟨"ColumnIdentityMismatch", tableName,
            "Column " ++ sq ++ p.1 ++ sq ++ " has different identity settings: source=" ++
              goBool p.2.IsIdentity ++ ", target=" ++ goBool targetCol.IsIdentity⟩])) ++
  ((goMap ColumnInfo.Name target).filterMap fun p =>
    if goFind (goMap ColumnInfo.Name source) p.1 = none then
      some ⟨"ExtraColumn", tableName,
        "Column " ++ sq ++ p.1 ++ sq ++ " exists in target but not in source"⟩
    else none)

/-- Go function `compare.comparePrimaryKeys`: a length mismatch yields exactly one
count-difference record and stops; equal lengths are compared position
by position, each disagreeing index yielding one record naming the
1-based position. -/
def comparePrimaryKeys (tableName : String) (source target : List String) :
    List Difference :=
  if source.length ≠ target.length then
    [⟨"PrimaryKeyMismatch", tableName,
      "Different number of primary key columns: source=" ++
        toString source.length ++ ", target=" ++ toString target.length⟩]
  else
    (List.range source.length).filterMap fun i =>
      if source.getD i "" ≠ target.getD i "" then
        some ⟨"PrimaryKeyMismatch", tableName,
          "Primary key column mismatch at position " ++ toString (i + 1) ++
            ": source=" ++ source.getD i "" ++ ", target=" ++ target.getD i ""⟩
      else none

/-- Go function `compare.compareIndexes`: name-keyed maps; missing/extra indexes,
and for names on both sides two independent checks (`Unique` flag,
positional column-list equality). -/
def compareIndexes (tableName : String) (source target : List IndexInfo) :
    List Difference :=
  ((goMap IndexInfo.Name source).flatMap fun p =>
    match goFind (goMap IndexInfo.Name target) p.1 with
    | none =>
        [⟨"MissingIndex", tableName,
          "Index " ++ sq ++ p.1 ++ sq ++ " exists in source but not in target"⟩]
    | some targetIdx =>
        (if p.2.Unique = targetIdx.Unique then [] else
          [⟨"IndexUniqueMismatch", tableName,
            "Index " ++ sq ++ p.1 ++ sq ++ " has different unique settings: source=" ++
              goBool p.2.Unique ++ ", target=" ++ goBool targetIdx.Unique⟩]) ++
        (if compareStringSlices p.2.Columns targetIdx.Columns then [] else
          [⟨"IndexColumnsMismatch", tableName,
            "Index " ++ sq ++ p.1 ++ sq ++ " has different columns: source=" ++
              goStrs p.2.Columns ++ ", target=" ++ goStrs targetIdx.Columns⟩])) ++
  ((goMap IndexInfo.Name target).filterMap fun p =>
    if goFind (goMap IndexInfo.Name source) p.1 = none then
      some ⟨"ExtraIndex", tableName,
        "Index " ++ sq ++ p.1 ++ sq ++ " exists in target but not in source"⟩
    else none)

/-- Go function `compare.compareForeignKeys`: name-keyed maps; missing/extra foreign
keys, and for names on both sides three independent checks (referenced
table, local column list, referenced column list). -/
def compareForeignKeys (tableName : String) (source target : List ForeignKeyInfo) :
    List Difference :=
  ((goMap ForeignKeyInfo.Name source).flatMap fun p =>
    match goFind (goMap ForeignKeyInfo.Name target) p.1 with
    | none =>
        [⟨"MissingForeignKey", tableName,
          "Foreign key " ++ sq ++ p.1 ++ sq ++ " exists in source but not in target"⟩]
    | some targetFK =>
        (if p.2.ReferencedTable = targetFK.ReferencedTable then [] else
          [⟨"ForeignKeyReferenceMismatch", tableName,
            "Foreign key " ++ sq ++ p.1 ++ sq ++ " references different tables: source=" ++
              p.2.ReferencedTable ++ ", target=" ++ targetFK.ReferencedTable⟩]) ++
        (if compareStringSlices p.2.Columns targetFK.Columns then [] else
          [⟨"ForeignKeyColumnsMismatch", tableName,
            "Foreign key " ++ sq ++ p.1 ++ sq ++ " has different columns: source=" ++
              goStrs p.2.Columns ++ ", target=" ++ goStrs targetFK.Columns⟩]) ++
        (if compareStringSlices p.2.ReferencedColumns targetFK.ReferencedColumns then [] else
          [⟨"ForeignKeyReferencedColumnsMismatch", tableName,
            "Foreign key " ++ sq ++ p.1 ++ sq ++ " references different columns: source=" ++
              goStrs p.2.ReferencedColumns ++ ", target=" ++ goStrs targetFK.ReferencedColumns⟩])) ++
  ((goMap ForeignKeyInfo.Name target).filterMap fun p =>
    if goFind (goMap ForeignKeyInfo.Name source) p.1 = none then
      some ⟨"ExtraForeignKey", tableName,
        "Foreign key " ++ sq ++ p.1 ++ sq ++ " exists in target but not in source"⟩
    else none)

/-- Body of the first loop of `compare.CompareSchemas`, run on one
source-table entry: a `MissingTable` record when the table is absent
from the target, otherwise the four sub-comparisons in the fixed order
columns, primary keys, indexes, foreign keys. -/
def tableDiffs (targetTables : List (String × TableInfo)) (p : String × TableInfo) :
    List Difference :=
  match goFind targetTables p.1 with
  | none =>
      [⟨"MissingTable", p.1, "Table exists in source but not in target"⟩]
  | some targetTable =>
      compareColumns p.1 p.2.Columns targetTable.Columns ++
      comparePrimaryKeys p.1 p.2.PrimaryKeys targetTable.PrimaryKeys ++
      compareIndexes p.1 p.2.Indexes targetTable.Indexes ++
      compareForeignKeys p.1 p.2.ForeignKeys targetTable.ForeignKeys

/-- Body of the second loop of `compare.CompareSchemas`, run on one
target-table entry: an `ExtraTable` record when the table is absent
from the source. -/
def extraTableDiff (sourceTables : List (String × TableInfo)) (p : String × TableInfo) :
    Option Difference :=
  if goFind sourceTables p.1 = none then
    some ⟨"ExtraTable", p.1, "Table exists in target but not in source"⟩
  else none

/-- Go function `compare.CompareSchemas`: the first loop over the source
tables (emitting `MissingTable` records and per-table sub-comparisons),
then the second loop over the target tables (emitting `ExtraTable`
records). -/
def CompareSchemas (source target : Schema) : List Difference :=
  source.Tables.flatMap (tableDiffs target.Tables) ++
  target.Tables.filterMap (extraTableDiff source.Tables)

/-- Well-formedness of a table as the spec states it: no duplicate
column, index, or foreign-key names within the table. -/
def WellFormedTable (t : TableInfo) : Prop :=
  (t.Columns.map ColumnInfo.Name).Nodup ∧
  (t.Indexes.map IndexInfo.Name).Nodup ∧
  (t.ForeignKeys.map ForeignKeyInfo.Name).Nodup

/-- Well-formedness of a schema: every table is well-formed. -/
def WellFormed (s : Schema) : Prop := ∀ p ∈ s.Tables, WellFormedTable p.2

/-! ## Lemmas about the Go map model -/

theorem goFind_append {α : Type} (m₁ m₂ : List (String × α)) (k : String) :
    goFind (m₁ ++ m₂) k =
      match goFind m₁ k with
      | some v => some v
      | none => goFind m₂ k := by
  induction m₁ with
  | nil => simp [goFind]
  | cons q rest ih =>
      obtain ⟨k', v⟩ := q
      by_cases h : k' = k <;> simp [goFind, h, ih]

theorem goFind_eq_none {α : Type} (m : List (String × α)) (k : String) :
    goFind m k = none ↔ k ∉ m.map Prod.fst := by
  induction m with
  | nil => simp [goFind]
  | cons q rest ih =>
      obtain ⟨k', v⟩ := q
      by_cases h : k' = k
      · subst h
        simp [goFind]
      · have h2 : k ≠ k' := fun e => h e.symm
        simp [goFind, h, ih, h2]

theorem keys_goInsert {α : Type} (m : List (String × α)) (k : String) (v : α) :
    (goInsert m k v).map Prod.fst =
      if k ∈ m.map Prod.fst then m.map Prod.fst else m.map Prod.fst ++ [k] := by
  unfold goInsert
  split
  · rw [List.map_map]
    apply List.map_congr_left
    intro p _
    by_cases h : p.1 = k <;> simp [h]
  · simp

theorem nodup_keys_goInsert {α : Type} (m : List (String × α)) (k : String) (v : α)
    (h : (m.map Prod.fst).Nodup) : ((goInsert m k v).map Prod.fst).Nodup := by
  rw [keys_goInsert]
  split
  · exact h
  · next hk =>
      rw [List.nodup_append]
      refine ⟨h, List.nodup_singleton k, ?_⟩
      intro x hx hx2
      rw [List.mem_singleton] at hx2
      exact hk (hx2 ▸ hx)

theorem nodup_keys_goMap {α : Type} (f : α → String) (l : List α) :
    ((goMap f l).map Prod.fst).Nodup := by
  suffices h : ∀ (m : List (String × α)), (m.map Prod.fst).Nodup →
      ((l.foldl (fun m x => goInsert m (f x) x) m).map Prod.fst).Nodup by
    exact h [] (by simp)
  induction l with
  | nil => intro m hm; simpa using hm
  | cons x rest ih =>
      intro m hm
      exact ih _ (nodup_keys_goInsert m (f x) x hm)

theorem goFind_of_mem_nodup {α : Type} {m : List (String × α)} {k : String} {v : α}
    (hnd : (m.map Prod.fst).Nodup) (hm : (k, v) ∈ m) : goFind m k = some v := by
  induction m with
  | nil => cases hm
  | cons q rest ih =>
      obtain ⟨k', v'⟩ := q
      simp only [List.map_cons, List.nodup_cons] at hnd
      rcases List.mem_cons.1 hm with h | h
      · cases h
        simp [goFind]
      · have hk : k' ≠ k := by
          rintro rfl
          exact hnd.1 (List.mem_map.2 ⟨(k', v), h, rfl⟩)
        simp [goFind, hk, ih hnd.2 h]

theorem goFind_mem {α : Type} {m : List (String × α)} {k : String} {v : α}
    (h : goFind m k = some v) : (k, v) ∈ m := by
  induction m with
  | nil => simp [goFind] at h
  | cons q rest ih =>
      obtain ⟨k', v'⟩ := q
      by_cases hk : k' = k
      · subst hk
        simp [goFind] at h
        simp [h]
      · simp [goFind, hk] at h
        exact List.mem_cons_of_mem _ (ih h)

theorem goFind_goMap_self {α : Type} {f : α → String} {l : List α}
    {p : String × α} (hp : p ∈ goMap f l) : goFind (goMap f l) p.1 = some p.2 :=
  goFind_of_mem_nodup (nodup_keys_goMap f l) hp

theorem goFind_isSome_of_mem {α : Type} {m : List (String × α)} {k : String}
    (h : k ∈ m.map Prod.fst) : goFind m k ≠ none := by
  intro hn
  exact (goFind_eq_none m k).1 hn h

/-! ## Reflexivity of the sub-comparisons -/

theorem compareStringSlices_self (a : List String) : compareStringSlices a a = true := by
  unfold compareStringSlices
  rw [if_neg (by simp)]
  simp

theorem compareColumns_self (tbl : String) (s : List ColumnInfo) :
    compareColumns tbl s s = [] := by
  unfold compareColumns
  rw [List.append_eq_nil]
  constructor
  · rw [List.flatMap_eq_nil_iff]
    intro p hp
    rw [goFind_goMap_self hp]
    simp
  · rw [List.filterMap_eq_nil_iff]
    intro p hp
    rw [goFind_goMap_self hp]
    simp

theorem comparePrimaryKeys_self (tbl : String) (s : List String) :
    comparePrimaryKeys tbl s s = [] := by
  unfold comparePrimaryKeys
  rw [if_neg (by simp)]
  rw [List.filterMap_eq_nil_iff]
  intro i _
  simp

theorem compareIndexes_self (tbl : String) (s : List IndexInfo) :
    compareIndexes tbl s s = [] := by
  unfold compareIndexes
  rw [List.append_eq_nil]
  constructor
  · rw [List.flatMap_eq_nil_iff]
    intro p hp
    rw [goFind_goMap_self hp]
    simp [compareStringSlices_self]
  · rw [List.filterMap_eq_nil_iff]
    intro p hp
    rw [goFind_goMap_self hp]
    simp

theorem compareForeignKeys_self (tbl : String) (s : List ForeignKeyInfo) :
    compareForeignKeys tbl s s = [] := by
  unfold compareForeignKeys
  rw [List.append_eq_nil]
  constructor
  · rw [List.flatMap_eq_nil_iff]
    intro p hp
    rw [goFind_goMap_self hp]
    simp [compareStringSlices_self]
  · rw [List.filterMap_eq_nil_iff]
    intro p hp
    rw [goFind_goMap_self hp]
    simp

theorem tableDiffs_self (s : Schema) (p : String × TableInfo) (hp : p ∈ s.Tables) :
    tableDiffs s.Tables p = [] := by
  unfold tableDiffs
  rw [goFind_of_mem_nodup s.nodupKeys hp]
  simp [compareColumns_self, comparePrimaryKeys_self, compareIndexes_self,
    compareForeignKeys_self]

/-! ## Shape facts about the emitted differences -/

theorem mem_if_singleton {α : Type} {c : Prop} [Decidable c] {x d : α}
    (h : d ∈ (if c then ([] : List α) else [x])) : d = x := by
  split at h
  · cases h
  · exact List.mem_singleton.1 h

theorem compareColumns_mem {tbl : String} {s t : List ColumnInfo} {d : Difference}
    (hd : d ∈ compareColumns tbl s t) :
    d.Table = tbl ∧ d.Typ ≠ "MissingTable" ∧ d.Typ ≠ "ExtraTable" := by
  unfold compareColumns at hd
  rw [List.mem_append] at hd
  rcases hd with hd | hd
  · rw [List.mem_flatMap] at hd
    obtain ⟨p, hp, hb⟩ := hd
    cases hfind : goFind (goMap ColumnInfo.Name t) p.1 <;> rw [hfind] at hb
    · rw [List.mem_singleton] at hb
      subst hb
      exact ⟨rfl, by simp, by simp⟩
    · simp only [List.mem_append] at hb
      rcases hb with ((hb | hb) | hb) | hb <;>
        · have he := mem_if_singleton hb
          subst he
          exact ⟨rfl, by simp, by simp⟩
  · rw [List.mem_filterMap] at hd
    obtain ⟨p, hp, hb⟩ := hd
    split at hb
    · rw [Option.some_inj] at hb
      subst hb
      exact ⟨rfl, by simp, by simp⟩
    · cases hb

theorem comparePrimaryKeys_mem {tbl : String} {s t : List String} {d : Difference}
    (hd : d ∈ comparePrimaryKeys tbl s t) :
    d.Table = tbl ∧ d.Typ ≠ "MissingTable" ∧ d.Typ ≠ "ExtraTable" := by
  unfold comparePrimaryKeys at hd
  split at hd
  · rw [List.mem_singleton] at hd
    subst hd
    exact ⟨rfl, by simp, by simp⟩
  · rw [List.mem_filterMap] at hd
    obtain ⟨i, hi, hb⟩ := hd
    split at hb
    · rw [Option.some_inj] at hb
      subst hb
      exact ⟨rfl, by simp, by simp⟩
    · cases hb

theorem compareIndexes_mem {tbl : String} {s t : List IndexInfo} {d : Difference}
    (hd : d ∈ compareIndexes tbl s t) :
    d.Table = tbl ∧ d.Typ ≠ "MissingTable" ∧ d.Typ ≠ "ExtraTable" := by
  unfold compareIndexes at hd
  rw [List.mem_append] at hd
  rcases hd with hd | hd
  · rw [List.mem_flatMap] at hd
    obtain ⟨p, hp, hb⟩ := hd
    cases hfind : goFind (goMap IndexInfo.Name t) p.1 <;> rw [hfind] at hb
    · rw [List.mem_singleton] at hb
      subst hb
      exact ⟨rfl, by simp, by simp⟩
    · simp only [List.mem_append] at hb
      rcases hb with hb | hb <;>
        · have he := mem_if_singleton hb
          subst he
          exact ⟨rfl, by simp, by simp⟩
  · rw [List.mem_filterMap] at hd
    obtain ⟨p, hp, hb⟩ := hd
    split at hb
    · rw [Option.some_inj] at hb
      subst hb
      exact ⟨rfl, by simp, by simp⟩
    · cases hb

theorem compareForeignKeys_mem {tbl : String} {s t : List ForeignKeyInfo} {d : Difference}
    (hd : d ∈ compareForeignKeys tbl s t) :
    d.Table = tbl ∧ d.Typ ≠ "MissingTable" ∧ d.Typ ≠ "ExtraTable" := by
  unfold compareForeignKeys at hd
  rw [List.mem_append] at hd
  rcases hd with hd | hd
  · rw [List.mem_flatMap] at hd
    obtain ⟨p, hp, hb⟩ := hd
    cases hfind : goFind (goMap ForeignKeyInfo.Name t) p.1 <;> rw [hfind] at hb
    · rw [List.mem_singleton] at hb
      subst hb
      exact ⟨rfl, by simp, by simp⟩
    · simp only [List.mem_append] at hb
      rcases hb with (hb | hb) | hb <;>
        · have he := mem_if_singleton hb
          subst he
          exact ⟨rfl, by simp, by simp⟩
  · rw [List.mem_filterMap] at hd
    obtain ⟨p, hp, hb⟩ := hd
    split at hb
    · rw [Option.some_inj] at hb
      subst hb
      exact ⟨rfl, by simp, by simp⟩
    · cases hb

theorem tableDiffs_mem {tt : List (String × TableInfo)} {p : String × TableInfo}
    {d : Difference} (hd : d ∈ tableDiffs tt p) :
    d.Table = p.1 ∧ d.Typ ≠ "ExtraTable" := by
  unfold tableDiffs at hd
  cases hfind : goFind tt p.1 <;> rw [hfind] at hd
  · rw [List.mem_singleton] at hd
    subst hd
    exact ⟨rfl, by simp⟩
  · simp only [List.mem_append] at hd
    rcases hd with ((hd | hd) | hd) | hd
    · exact ⟨(compareColumns_mem hd).1, (compareColumns_mem hd).2.2⟩
    · exact ⟨(comparePrimaryKeys_mem hd).1, (comparePrimaryKeys_mem hd).2.2⟩
    · exact ⟨(compareIndexes_mem hd).1, (compareIndexes_mem hd).2.2⟩
    · exact ⟨(compareForeignKeys_mem hd).1, (compareForeignKeys_mem hd).2.2⟩

theorem extraTableDiff_eq_some {st : List (String × TableInfo)} {p : String × TableInfo}
    {d : Difference} (h : extraTableDiff st p = some d) :
    d.Typ = "ExtraTable" ∧ d.Table = p.1 ∧ goFind st p.1 = none := by
  unfold extraTableDiff at h
  split at h
  · rw [Option.some_inj] at h
    subst h
    exact ⟨rfl, rfl, by assumption⟩
  · cases h

/-! ## Filtering a flatMap over a unique-keyed list -/

theorem filterMap_eq_flatMap_toList {α β : Type} (l : List α) (g : α → Option β) :
    l.filterMap g = l.flatMap fun a => (g a).toList := by
  induction l with
  | nil => rfl
  | cons x rest ih => cases hx : g x <;> simp [hx, ih]

theorem filter_flatMap_eq_of_unique_key {α β : Type} (l : List (String × α))
    (g : String × α → List β) (p : β → Bool) (T : String) (out : List β)
    (hnd : (l.map Prod.fst).Nodup) (hT : T ∈ l.map Prod.fst)
    (hhit : ∀ q ∈ l, q.1 = T → (g q).filter p = out)
    (hmiss : ∀ q ∈ l, q.1 ≠ T → (g q).filter p = []) :
    (l.flatMap g).filter p = out := by
  induction l with
  | nil => simp at hT
  | cons q rest ih =>
      rw [List.map_cons, List.nodup_cons] at hnd
      rw [List.flatMap_cons, List.filter_append]
      by_cases hq : q.1 = T
      · rw [hhit q (List.mem_cons_self q rest) hq]
        have hrest : (rest.flatMap g).filter p = [] := by
          rw [List.filter_flatMap, List.flatMap_eq_nil_iff]
          intro x hx
          refine hmiss x (List.mem_cons_of_mem q hx) fun he => ?_
          exact hnd.1 (hq ▸ he ▸ List.mem_map.2 ⟨x, hx, rfl⟩)
        rw [hrest, List.append_nil]
      · rw [hmiss q (List.mem_cons_self q rest) hq, List.nil_append]
        have hT' : T ∈ rest.map Prod.fst := by
          rcases List.mem_cons.1 (List.map_cons Prod.fst q rest ▸ hT) with h | h
          · exact absurd h.symm hq
          · exact h
        exact ih hnd.2 hT'
          (fun x hx he => hhit x (List.mem_cons_of_mem q hx) he)
          (fun x hx he => hmiss x (List.mem_cons_of_mem q hx) he)

theorem filter_flatMap_eq_nil {α β : Type} (l : List α) (g : α → List β) (p : β → Bool)
    (h : ∀ a ∈ l, ∀ b ∈ g a, p b = false) : (l.flatMap g).filter p = [] := by
  rw [List.filter_flatMap, List.flatMap_eq_nil_iff]
  intro x hx
  rw [List.filter_eq_nil_iff]
  intro b hb hp
  rw [h x hx b hb] at hp
  cases hp

/-! ## Sample data used by the concrete witnesses -/

/-- A sample table with a column, a composite primary key, an index and
a foreign key. -/
def usersTable : TableInfo :=
  ⟨"users",
   [⟨"id", "integer", false, "", true⟩, ⟨"email", "text", true, "", false⟩],
   ["id", "email"],
   [⟨"users_email_idx", ["email"], true⟩],
   [⟨"users_org_fk", ["org_id"], "orgs", ["id"]⟩]⟩

/-- A sample table with no columns, keys, indexes or foreign keys. -/
def bareTable (nm : String) : TableInfo := ⟨nm, [], [], [], []⟩

/-- A one-table sample schema. -/
def usersSchema : Schema := ⟨[("users", usersTable)], by simp⟩

/-- The empty sample schema. -/
def emptySchema : Schema := ⟨[], List.nodup_nil⟩

/-! ## C1: reflexivity -/

/-- C1: for every well-formed schema `A` (no duplicate column, index,
or foreign-key names within any table), `CompareSchemas A A` returns
the empty list of differences. -/
theorem CompareSchemas_self_eq_nil (A : Schema) (_h : WellFormed A) :
    CompareSchemas A A = [] := by
  unfold CompareSchemas
  rw [List.append_eq_nil]
  constructor
  · rw [List.flatMap_eq_nil_iff]
    intro p hp
    exact tableDiffs_self A p hp
  · rw [List.filterMap_eq_nil_iff]
    intro p hp
    unfold extraTableDiff
    rw [if_neg]
    exact goFind_isSome_of_mem (List.mem_map.2 ⟨p, hp, rfl⟩)

/-- Witness for C1 at a concrete well-formed one-table schema. -/
theorem CompareSchemas_self_eq_nil_witness :
    WellFormed usersSchema ∧ CompareSchemas usersSchema usersSchema = [] := by
  have hw : WellFormed usersSchema := by
    intro p hp
    rw [usersSchema, List.mem_singleton] at hp
    subst hp
    exact ⟨by decide, by decide, by decide⟩
  exact ⟨hw, CompareSchemas_self_eq_nil usersSchema hw⟩

/-! ## C2: exactly one MissingTable / ExtraTable per one-sided table -/

/-- How many differences in `l` have the given type and table. -/
def diffCount (l : List Difference) (ty tbl : String) : Nat :=
  (l.filter fun d => decide (d.Typ = ty ∧ d.Table = tbl)).length

/-- The record emitted for a table present only in the source. -/
def missingTableDiff (T : String) : Difference :=
  ⟨"MissingTable", T, "Table exists in source but not in target"⟩

/-- The record emitted for a table present only in the target. -/
def extraTableRecord (T : String) : Difference :=
  ⟨"ExtraTable", T, "Table exists in target but not in source"⟩

/-- C2: for schemas `A`, `B` and a table name `T` that is a key of `A`'s
table map but not of `B`'s, `CompareSchemas A B` contains exactly one
`MissingTable` difference with table `T`, and `CompareSchemas B A`
contains exactly one `ExtraTable` difference with table `T`. -/
theorem one_missing_one_extra (A B : Schema) (T : String)
    (hA : T ∈ A.Tables.map Prod.fst) (hB : T ∉ B.Tables.map Prod.fst) :
    diffCount (CompareSchemas A B) "MissingTable" T = 1 ∧
    diffCount (CompareSchemas B A) "ExtraTable" T = 1 := by
  constructor
  · unfold diffCount CompareSchemas
    rw [List.filter_append]
    have h2 : (B.Tables.filterMap (extraTableDiff A.Tables)).filter
        (fun d => decide (d.Typ = "MissingTable" ∧ d.Table = T)) = [] := by
      rw [List.filter_eq_nil_iff]
      intro d hd hp
      rw [List.mem_filterMap] at hd
      obtain ⟨q, hq, he⟩ := hd
      obtain ⟨hty, -, -⟩ := extraTableDiff_eq_some he
      rw [decide_eq_true_eq] at hp
      rw [hty] at hp
      exact absurd hp.1 (by decide)
    have h1 : (A.Tables.flatMap (tableDiffs B.Tables)).filter
        (fun d => decide (d.Typ = "MissingTable" ∧ d.Table = T)) = [missingTableDiff T] := by
      apply filter_flatMap_eq_of_unique_key _ _ _ T _ A.nodupKeys hA
      · intro q hq hqT
        unfold tableDiffs
        rw [hqT, (goFind_eq_none _ _).2 hB]
        simp [missingTableDiff]
      · intro q hq hqT
        rw [List.filter_eq_nil_iff]
        intro d hd hp
        rw [decide_eq_true_eq] at hp
        exact hqT ((tableDiffs_mem hd).1.symm.trans hp.2)
    rw [h1, h2, List.append_nil]
    rfl
  · unfold diffCount CompareSchemas
    rw [List.filter_append]
    have h1 : (B.Tables.flatMap (tableDiffs A.Tables)).filter
        (fun d => decide (d.Typ = "ExtraTable" ∧ d.Table = T)) = [] := by
      apply filter_flatMap_eq_nil
      intro q hq d hd
      rw [decide_eq_false_iff_not]
      rintro ⟨h1, -⟩
      exact (tableDiffs_mem hd).2 h1
    have h2 : (A.Tables.filterMap (extraTableDiff B.Tables)).filter
        (fun d => decide (d.Typ = "ExtraTable" ∧ d.Table = T)) = [extraTableRecord T] := by
      rw [filterMap_eq_flatMap_toList]
      apply filter_flatMap_eq_of_unique_key _ _ _ T _ A.nodupKeys hA
      · intro q hq hqT
        unfold extraTableDiff
        rw [hqT, if_pos ((goFind_eq_none _ _).2 hB)]
        simp [extraTableRecord]
      · intro q hq hqT
        unfold extraTableDiff
        split
        · simp [hqT]
        · simp
    rw [h1, h2, List.nil_append]
    rfl

/-- Witness for C2 at concrete schemas: `usersSchema` has table
`users`, the empty schema does not. -/
theorem one_missing_one_extra_witness :
    "users" ∈ usersSchema.Tables.map Prod.fst ∧
    "users" ∉ emptySchema.Tables.map Prod.fst ∧
    diffCount (CompareSchemas usersSchema emptySchema) "MissingTable" "users" = 1 ∧
    diffCount (CompareSchemas emptySchema usersSchema) "ExtraTable" "users" = 1 := by
  have h := one_missing_one_extra usersSchema emptySchema "users" (by decide) (by decide)
  exact ⟨by decide, by decide, h.1, h.2⟩

/-! ## C9: a source-only table yields exactly its MissingTable record -/

/-- C9: for a table name `T` present in the source but not the target,
the only difference in the output whose table field is `T` is the
`MissingTable` record — no column, primary-key, index, or foreign-key
differences are produced for a one-sided table. -/
theorem sourceOnly_table_single_diff (A B : Schema) (T : String)
    (hA : T ∈ A.Tables.map Prod.fst) (hB : T ∉ B.Tables.map Prod.fst) :
    (CompareSchemas A B).filter (fun d => decide (d.Table = T)) =
      [missingTableDiff T] := by
  unfold CompareSchemas
  rw [List.filter_append]
  have h2 : (B.Tables.filterMap (extraTableDiff A.Tables)).filter
      (fun d => decide (d.Table = T)) = [] := by
    rw [List.filter_eq_nil_iff]
    intro d hd hp
    rw [List.mem_filterMap] at hd
    obtain ⟨q, hq, he⟩ := hd
    obtain ⟨-, htbl, hfind⟩ := extraTableDiff_eq_some he
    rw [decide_eq_true_eq] at hp
    rw [htbl] at hp
    subst hp
    exact goFind_isSome_of_mem hA hfind
  have h1 : (A.Tables.flatMap (tableDiffs B.Tables)).filter
      (fun d => decide (d.Table = T)) = [missingTableDiff T] := by
    apply filter_flatMap_eq_of_unique_key _ _ _ T _ A.nodupKeys hA
    · intro q hq hqT
      unfold tableDiffs
      rw [hqT, (goFind_eq_none _ _).2 hB]
      simp [missingTableDiff]
    · intro q hq hqT
      rw [List.filter_eq_nil_iff]
      intro d hd hp
      rw [decide_eq_true_eq] at hp
      exact hqT ((tableDiffs_mem hd).1.symm.trans hp)
  rw [h1, h2, List.append_nil]

/-- Witness for C9 at concrete schemas. -/
theorem sourceOnly_table_single_diff_witness :
    "users" ∈ usersSchema.Tables.map Prod.fst ∧
    "users" ∉ emptySchema.Tables.map Prod.fst ∧
    (CompareSchemas usersSchema emptySchema).filter
      (fun d => decide (d.Table = "users")) = [missingTableDiff "users"] :=
  ⟨by decide, by decide,
   sourceOnly_table_single_diff usersSchema emptySchema "users" (by decide) (by decide)⟩

/-! ## C10: output ordering -/

/-- C10: every `ExtraTable` difference appears after all other
differences (the target-only pass runs last), and for a table present
in both schemas its differences appear contiguously in the fixed order
columns, primary keys, indexes, foreign keys. -/
theorem extraTable_last_and_grouped (A B : Schema) :
    (∃ l₁ l₂, CompareSchemas A B = l₁ ++ l₂ ∧
      (∀ d ∈ l₁, d.Typ ≠ "ExtraTable") ∧ (∀ d ∈ l₂, d.Typ = "ExtraTable")) ∧
    (∀ T st tt, (T, st) ∈ A.Tables → goFind B.Tables T = some tt →
      ∃ pre post, CompareSchemas A B =
        pre ++ (compareColumns T st.Columns tt.Columns ++
                comparePrimaryKeys T st.PrimaryKeys tt.PrimaryKeys ++
                compareIndexes T st.Indexes tt.Indexes ++
                compareForeignKeys T st.ForeignKeys tt.ForeignKeys) ++ post) := by
  constructor
  · refine ⟨A.Tables.flatMap (tableDiffs B.Tables),
      B.Tables.filterMap (extraTableDiff A.Tables), rfl, ?_, ?_⟩
    · intro d hd
      rw [List.mem_flatMap] at hd
      obtain ⟨q, hq, hb⟩ := hd
      exact (tableDiffs_mem hb).2
    · intro d hd
      rw [List.mem_filterMap] at hd
      obtain ⟨q, hq, hb⟩ := hd
      exact (extraTableDiff_eq_some hb).1
  · intro T st tt hmem hfind
    obtain ⟨s1, s2, hsplit⟩ := List.append_of_mem hmem
    refine ⟨s1.flatMap (tableDiffs B.Tables),
      s2.flatMap (tableDiffs B.Tables) ++
        B.Tables.filterMap (extraTableDiff A.Tables), ?_⟩
    unfold CompareSchemas
    rw [hsplit, List.flatMap_append, List.flatMap_cons]
    have hblock : tableDiffs B.Tables (T, st) =
        compareColumns T st.Columns tt.Columns ++
        comparePrimaryKeys T st.PrimaryKeys tt.PrimaryKeys ++
        compareIndexes T st.Indexes tt.Indexes ++
        compareForeignKeys T st.ForeignKeys tt.ForeignKeys := by
      unfold tableDiffs
      simp only [hfind]
    rw [hblock]
    simp [List.append_assoc]

/-- Witness for C10: the `users` table is present in both copies of the
one-table sample schema. -/
theorem extraTable_last_and_grouped_witness :
    ("users", usersTable) ∈ usersSchema.Tables ∧
    goFind usersSchema.Tables "users" = some usersTable ∧
    ∃ pre post, CompareSchemas usersSchema usersSchema =
      pre ++ (compareColumns "users" usersTable.Columns usersTable.Columns ++
              comparePrimaryKeys "users" usersTable.PrimaryKeys usersTable.PrimaryKeys ++
              compareIndexes "users" usersTable.Indexes usersTable.Indexes ++
              compareForeignKeys "users" usersTable.ForeignKeys usersTable.ForeignKeys) ++
        post :=
  ⟨by decide, by decide,
   (extraTable_last_and_grouped usersSchema usersSchema).2 "users" usersTable usersTable
     (by decide) (by decide)⟩

/-! ## C3: primary-key comparison -/

theorem filterMap_ite {α β : Type} (l : List α) (p : α → Prop) [DecidablePred p]
    (f : α → β) :
    (l.filterMap fun a => if p a then some (f a) else none) =
      (l.filter fun a => decide (p a)).map f := by
  induction l with
  | nil => rfl
  | cons x rest ih => by_cases hx : p x <;> simp [hx, ih]

/-- C3: a primary-key length mismatch yields exactly the one record
describing the count difference; equal lengths yield one record per
disagreeing position, naming the 1-based position, so the number of
differences equals the number of disagreeing positions. -/
theorem comparePrimaryKeys_spec (tbl : String) (s t : List String) :
    (s.length ≠ t.length →
      comparePrimaryKeys tbl s t = [⟨"PrimaryKeyMismatch", tbl,
        "Different number of primary key columns: source=" ++ toString s.length ++
          ", target=" ++ toString t.length⟩]) ∧
    (s.length = t.length →
      comparePrimaryKeys tbl s t =
        ((List.range s.length).filter fun i => decide (s.getD i "" ≠ t.getD i "")).map
          fun i => ⟨"PrimaryKeyMismatch", tbl,
            "Primary key column mismatch at position " ++ toString (i + 1) ++
              ": source=" ++ s.getD i "" ++ ", target=" ++ t.getD i ""⟩) ∧
    (s.length = t.length →
      (comparePrimaryKeys tbl s t).length =
        ((List.range s.length).filter fun i =>
          decide (s.getD i "" ≠ t.getD i "")).length) := by
  have hpos : s.length = t.length →
      comparePrimaryKeys tbl s t =
        ((List.range s.length).filter fun i => decide (s.getD i "" ≠ t.getD i "")).map
          fun i => ⟨"PrimaryKeyMismatch", tbl,
            "Primary key column mismatch at position " ++ toString (i + 1) ++
              ": source=" ++ s.getD i "" ++ ", target=" ++ t.getD i ""⟩ := by
    intro h
    unfold comparePrimaryKeys
    rw [if_neg (by simp [h])]
    exact filterMap_ite _ _ _
  refine ⟨?_, hpos, ?_⟩
  · intro h
    unfold comparePrimaryKeys
    rw [if_pos h]
  · intro h
    rw [hpos h, List.length_map]

/-- Witness for C3: a length mismatch and a positional mismatch, both
at concrete key lists. -/
theorem comparePrimaryKeys_spec_witness :
    (["a"].length ≠ ([] : List String).length ∧
      comparePrimaryKeys "t" ["a"] [] = [⟨"PrimaryKeyMismatch", "t",
        "Different number of primary key columns: source=1, target=0"⟩]) ∧
    (["a", "b"].length = ["x", "b"].length ∧
      comparePrimaryKeys "t" ["a", "b"] ["x", "b"] =
        ((List.range 2).filter fun i =>
          decide ((["a", "b"].getD i "" : String) ≠ ["x", "b"].getD i "")).map
          fun i => ⟨"PrimaryKeyMismatch", "t",
            "Primary key column mismatch at position " ++ toString (i + 1) ++
              ": source=" ++ ["a", "b"].getD i "" ++ ", target=" ++
              ["x", "b"].getD i ""⟩) :=
  ⟨⟨by decide, (comparePrimaryKeys_spec "t" ["a"] []).1 (by decide)⟩,
   ⟨rfl, (comparePrimaryKeys_spec "t" ["a", "b"] ["x", "b"]).2.1 rfl⟩⟩

/-! ## C4: column field checks are independent -/

theorem goMap_singleton {α : Type} (f : α → String) (x : α) :
    goMap f [x] = [(f x, x)] := by
  simp [goMap, goInsert]

theorem compareColumns_pair (tbl : String) (c1 c2 : ColumnInfo)
    (h : c1.Name = c2.Name) :
    compareColumns tbl [c1] [c2] =
      (if c1.Typ = c2.Typ then [] else
        [⟨"ColumnTypeMismatch", tbl,
          "Column " ++ sq ++ c1.Name ++ sq ++ " has different types: source=" ++
            c1.Typ ++ ", target=" ++ c2.Typ⟩]) ++
      (if c1.Nullable = c2.Nullable then [] else
        [⟨"ColumnNullableMismatch", tbl,
          "Column " ++ sq ++ c1.Name ++ sq ++ " has different nullable settings: source=" ++
            goBool c1.Nullable ++ ", target=" ++ goBool c2.Nullable⟩]) ++
      (if c1.Default = c2.Default then [] else
        [⟨"ColumnDefaultMismatch", tbl,
          "Column " ++ sq ++ c1.Name ++ sq ++ " has different default values: source=" ++
            c1.Default ++ ", target=" ++ c2.Default⟩]) ++
      (if c1.IsIdentity = c2.IsIdentity then [] else
        [⟨"ColumnIdentityMismatch", tbl,
          "Column " ++ sq ++ c1.Name ++ sq ++ " has different identity settings: source=" ++
            goBool c1.IsIdentity ++ ", target=" ++ goBool c2.IsIdentity⟩]) := by
  unfold compareColumns
  rw [goMap_singleton, goMap_singleton]
  have hf : goFind [(c2.Name, c2)] c1.Name = some c2 := by
    rw [← h]
    simp [goFind]
  have hg : goFind [(c1.Name, c1)] c2.Name = some c1 := by
    rw [← h]
    simp [goFind]
  rw [List.flatMap_singleton]
  simp only [hf, hg]
  simp [List.append_assoc, hg]

/-- C4: for a same-named column on both sides, each of the four fields
is checked independently, the number of differences is the number of
mismatching fields (hence between zero and four), and a column
differing exactly in type and nullability yields exactly the two
differences `ColumnTypeMismatch` and `ColumnNullableMismatch`. -/
theorem compareColumns_field_independence (tbl : String) (c1 c2 : ColumnInfo)
    (h : c1.Name = c2.Name) :
    ((compareColumns tbl [c1] [c2]).length =
      (if c1.Typ = c2.Typ then 0 else 1) + (if c1.Nullable = c2.Nullable then 0 else 1) +
      (if c1.Default = c2.Default then 0 else 1) +
      (if c1.IsIdentity = c2.IsIdentity then 0 else 1)) ∧
    (compareColumns tbl [c1] [c2]).length ≤ 4 ∧
    (c1.Typ ≠ c2.Typ → c1.Nullable ≠ c2.Nullable → c1.Default = c2.Default →
     c1.IsIdentity = c2.IsIdentity →
      (compareColumns tbl [c1] [c2]).map Difference.Typ =
        ["ColumnTypeMismatch", "ColumnNullableMismatch"]) := by
  rw [compareColumns_pair tbl c1 c2 h]
  refine ⟨?_, ?_, ?_⟩
  · by_cases h1 : c1.Typ = c2.Typ <;> by_cases h2 : c1.Nullable = c2.Nullable <;>
      by_cases h3 : c1.Default = c2.Default <;>
      by_cases h4 : c1.IsIdentity = c2.IsIdentity <;> simp [h1, h2, h3, h4]
  · by_cases h1 : c1.Typ = c2.Typ <;> by_cases h2 : c1.Nullable = c2.Nullable <;>
      by_cases h3 : c1.Default = c2.Default <;>
      by_cases h4 : c1.IsIdentity = c2.IsIdentity <;> simp [h1, h2, h3, h4]
  · intro h1 h2 h3 h4
    rw [if_neg h1, if_neg h2, if_pos h3, if_pos h4]
    simp

/-- A sample column used by the C4 witness. -/
def colX : ColumnInfo := ⟨"age", "integer", false, "", false⟩

/-- A sample column of the same name differing in type and nullability. -/
def colY : ColumnInfo := ⟨"age", "text", true, "", false⟩

/-- Witness for C4 at two concrete columns differing exactly in type
and nullability. -/
theorem compareColumns_field_independence_witness :
    colX.Name = colY.Name ∧ colX.Typ ≠ colY.Typ ∧ colX.Nullable ≠ colY.Nullable ∧
    colX.Default = colY.Default ∧ colX.IsIdentity = colY.IsIdentity ∧
    (compareColumns "t" [colX] [colY]).map Difference.Typ =
      ["ColumnTypeMismatch", "ColumnNullableMismatch"] :=
  ⟨rfl, by decide, by decide, rfl, rfl,
   (compareColumns_field_independence "t" colX colY rfl).2.2
     (by decide) (by decide) rfl rfl⟩

/-! ## C5: ordered-sequence equality is purely positional -/

/-- C5: `compareStringSlices` returns true exactly when the two lists
have equal length and equal elements at every position; consequently
two same-named indexes over `(x, y)` and `(y, x)` with `x ≠ y` produce
an `IndexColumnsMismatch` — the comparison is never set-based. -/
theorem compareStringSlices_spec (a b : List String) (tbl nm x y : String) (u : Bool) :
    (compareStringSlices a b = true ↔
      (a.length = b.length ∧ ∀ i < a.length, a.getD i "" = b.getD i "")) ∧
    (x ≠ y →
      "IndexColumnsMismatch" ∈
        (compareIndexes tbl [⟨nm, [x, y], u⟩] [⟨nm, [y, x], u⟩]).map Difference.Typ) := by
  constructor
  · unfold compareStringSlices
    by_cases hl : a.length = b.length
    · rw [if_neg (by simp [hl])]
      simp [List.all_eq_true, hl]
    · rw [if_pos hl]
      simp [hl]
  · intro hxy
    have hcs : compareStringSlices [x, y] [y, x] = false := by
      unfold compareStringSlices
      rw [if_neg (by simp)]
      apply List.all_eq_false.2
      exact ⟨0, by simp, by simp [hxy]⟩
    unfold compareIndexes
    rw [goMap_singleton, goMap_singleton, List.flatMap_singleton]
    have hf : goFind [((⟨nm, [y, x], u⟩ : IndexInfo).Name, (⟨nm, [y, x], u⟩ : IndexInfo))]
        (⟨nm, [x, y], u⟩ : IndexInfo).Name = some ⟨nm, [y, x], u⟩ := by
      simp [goFind]
    simp only [hf]
    simp [hcs]

/-- Witness for C5 with concrete distinct column names. -/
theorem compareStringSlices_spec_witness :
    ("a" : String) ≠ "b" ∧
    "IndexColumnsMismatch" ∈
      (compareIndexes "t" [⟨"i", ["a", "b"], false⟩]
        [⟨"i", ["b", "a"], false⟩]).map Difference.Typ :=
  ⟨by decide,
   (compareStringSlices_spec [] [] "t" "i" "a" "b" false).2 (by decide)⟩

/-! ## C6: totality and empty tables -/

theorem flatMap_congr_mem {α β : Type} {l : List α} {f g : α → List β}
    (h : ∀ a ∈ l, f a = g a) : l.flatMap f = l.flatMap g := by
  induction l with
  | nil => rfl
  | cons x rest ih =>
      rw [List.flatMap_cons, List.flatMap_cons, h x (List.mem_cons_self x rest),
        ih fun a ha => h a (List.mem_cons_of_mem x ha)]

theorem filterMap_congr_mem {α β : Type} {l : List α} {f g : α → Option β}
    (h : ∀ a ∈ l, f a = g a) : l.filterMap f = l.filterMap g := by
  induction l with
  | nil => rfl
  | cons x rest ih =>
      rw [List.filterMap_cons, List.filterMap_cons, h x (List.mem_cons_self x rest),
        ih fun a ha => h a (List.mem_cons_of_mem x ha)]

theorem goFind_append_single_ne {α : Type} (m : List (String × α)) (k T : String)
    (v : α) (h : k ≠ T) : goFind (m ++ [(T, v)]) k = goFind m k := by
  rw [goFind_append]
  cases hf : goFind m k
  · change goFind [(T, v)] k = none
    unfold goFind
    rw [if_neg fun e => h e.symm]
    rfl
  · rfl

theorem goFind_append_single {α : Type} (m : List (String × α)) (T : String) (v : α)
    (h : goFind m T = none) : goFind (m ++ [(T, v)]) T = some v := by
  rw [goFind_append, h]
  simp [goFind]

/-- Extend a schema with a fresh table entry (the new name must not be
a key yet, as in a Go map insert of a new key). -/
def appendTable (A : Schema) (T : String) (t : TableInfo)
    (h : T ∉ A.Tables.map Prod.fst) : Schema :=
  ⟨A.Tables ++ [(T, t)], by
    rw [List.map_append, List.nodup_append]
    refine ⟨A.nodupKeys, by simp, ?_⟩
    intro x hx hx2
    simp only [List.map_cons, List.map_nil, List.mem_singleton] at hx2
    exact h (hx2 ▸ hx)⟩

/-- C6: the comparison is total — adding a table with no columns, no
primary-key columns, no indexes and no foreign keys to both schemas
changes nothing: such a table contributes no differences. -/
theorem empty_table_no_diffs (A B : Schema) (T : String)
    (hA : T ∉ A.Tables.map Prod.fst) (hB : T ∉ B.Tables.map Prod.fst) :
    CompareSchemas (appendTable A T (bareTable T) hA)
      (appendTable B T (bareTable T) hB) = CompareSchemas A B := by
  unfold CompareSchemas appendTable
  rw [List.flatMap_append, List.filterMap_append]
  have hBfind : goFind (B.Tables ++ [(T, bareTable T)]) T = some (bareTable T) :=
    goFind_append_single _ _ _ ((goFind_eq_none _ _).2 hB)
  have hAfind : goFind (A.Tables ++ [(T, bareTable T)]) T = some (bareTable T) :=
    goFind_append_single _ _ _ ((goFind_eq_none _ _).2 hA)
  have hflat : A.Tables.flatMap (tableDiffs (B.Tables ++ [(T, bareTable T)])) =
      A.Tables.flatMap (tableDiffs B.Tables) := by
    apply flatMap_congr_mem
    intro q hq
    have hqT : q.1 ≠ T := fun e => hA (e ▸ List.mem_map.2 ⟨q, hq, rfl⟩)
    unfold tableDiffs
    rw [goFind_append_single_ne _ _ _ _ hqT]
  have hnew : [(T, bareTable T)].flatMap
      (tableDiffs (B.Tables ++ [(T, bareTable T)])) = [] := by
    rw [List.flatMap_singleton]
    unfold tableDiffs
    rw [hBfind]
    simp [bareTable, compareColumns_self, comparePrimaryKeys_self, compareIndexes_self,
      compareForeignKeys_self]
  have hfm : B.Tables.filterMap (extraTableDiff (A.Tables ++ [(T, bareTable T)])) =
      B.Tables.filterMap (extraTableDiff A.Tables) := by
    apply filterMap_congr_mem
    intro q hq
    have hqT : q.1 ≠ T := fun e => hB (e ▸ List.mem_map.2 ⟨q, hq, rfl⟩)
    unfold extraTableDiff
    rw [goFind_append_single_ne _ _ _ _ hqT]
  have hfmnew : [(T, bareTable T)].filterMap
      (extraTableDiff (A.Tables ++ [(T, bareTable T)])) = [] := by
    rw [List.filterMap_eq_nil_iff]
    intro q hq
    rw [List.mem_singleton] at hq
    subst hq
    unfold extraTableDiff
    rw [if_neg (by simp [hAfind])]
  rw [hflat, hnew, hfm, hfmnew, List.append_nil, List.append_nil]

/-- Witness for C6: adding an empty `audit` table to two distinct
one-table schemas leaves the comparison output unchanged. -/
theorem empty_table_no_diffs_witness :
    "audit" ∉ usersSchema.Tables.map Prod.fst ∧
    "audit" ∉ emptySchema.Tables.map Prod.fst ∧
    CompareSchemas (appendTable usersSchema "audit" (bareTable "audit") (by decide))
        (appendTable emptySchema "audit" (bareTable "audit") (by decide)) =
      CompareSchemas usersSchema emptySchema :=
  ⟨by decide, by decide,
   empty_table_no_diffs usersSchema emptySchema "audit" (by decide) (by decide)⟩

/-! ## C7: a same-name duplicate entry — the last one wins -/

theorem goMap_pair_dup {α : Type} (f : α → String) (x y : α) (h : f x = f y) :
    goMap f [x, y] = goMap f [y] := by
  simp [goMap, goInsert, h]

/-- C7: when a column, index, or foreign-key slice holds two entries
with the same name, the comparison behaves as if only the last entry
were present (the map keeps the last occurrence), and the duplicate
raises no error and no extra difference. -/
theorem duplicate_name_last_wins (tbl : String) (c1 c2 : ColumnInfo)
    (i1 i2 : IndexInfo) (fk1 fk2 : ForeignKeyInfo)
    (tc : List ColumnInfo) (ti : List IndexInfo) (tf : List ForeignKeyInfo)
    (hc : c1.Name = c2.Name) (hi : i1.Name = i2.Name) (hk : fk1.Name = fk2.Name) :
    compareColumns tbl [c1, c2] tc = compareColumns tbl [c2] tc ∧
    compareIndexes tbl [i1, i2] ti = compareIndexes tbl [i2] ti ∧
    compareForeignKeys tbl [fk1, fk2] tf = compareForeignKeys tbl [fk2] tf ∧
    compareColumns tbl [c1, c2] [c2] = [] := by
  have h1 : ∀ t, compareColumns tbl [c1, c2] t = compareColumns tbl [c2] t := by
    intro t
    unfold compareColumns
    rw [goMap_pair_dup ColumnInfo.Name c1 c2 hc]
  refine ⟨h1 tc, ?_, ?_, ?_⟩
  · unfold compareIndexes
    rw [goMap_pair_dup IndexInfo.Name i1 i2 hi]
  · unfold compareForeignKeys
    rw [goMap_pair_dup ForeignKeyInfo.Name fk1 fk2 hk]
  · rw [h1 [c2], compareColumns_self]

/-- Witness for C7 at two same-named concrete columns, indexes and
foreign keys. -/
theorem duplicate_name_last_wins_witness :
    colX.Name = colY.Name ∧
    compareColumns "t" [colX, colY] [] = compareColumns "t" [colY] [] ∧
    compareIndexes "t" [⟨"i", ["a"], false⟩, ⟨"i", ["b"], true⟩] [] =
      compareIndexes "t" [⟨"i", ["b"], true⟩] [] ∧
    compareColumns "t" [colX, colY] [colY] = [] := by
  have h := duplicate_name_last_wins "t" colX colY ⟨"i", ["a"], false⟩ ⟨"i", ["b"], true⟩
    ⟨"fk", ["a"], "t2", ["id"]⟩ ⟨"fk", ["b"], "t3", ["x"]⟩ [] [] [] rfl rfl rfl
  exact ⟨rfl, h.1, h.2.1, h.2.2.2⟩

/-! ## C8: the three independent foreign-key checks -/

theorem compareForeignKeys_pair (tbl : String) (f1 f2 : ForeignKeyInfo)
    (h : f1.Name = f2.Name) :
    compareForeignKeys tbl [f1] [f2] =
      (if f1.ReferencedTable = f2.ReferencedTable then [] else
        [⟨"ForeignKeyReferenceMismatch", tbl,
          "Foreign key " ++ sq ++ f1.Name ++ sq ++ " references different tables: source=" ++
            f1.ReferencedTable ++ ", target=" ++ f2.ReferencedTable⟩]) ++
      (if compareStringSlices f1.Columns f2.Columns then [] else
        [⟨"ForeignKeyColumnsMismatch", tbl,
          "Foreign key " ++ sq ++ f1.Name ++ sq ++ " has different columns: source=" ++
            goStrs f1.Columns ++ ", target=" ++ goStrs f2.Columns⟩]) ++
      (if compareStringSlices f1.ReferencedColumns f2.ReferencedColumns then [] else
        [⟨"ForeignKeyReferencedColumnsMismatch", tbl,
          "Foreign key " ++ sq ++ f1.Name ++ sq ++ " references different columns: source=" ++
            goStrs f1.ReferencedColumns ++ ", target=" ++ goStrs f2.ReferencedColumns⟩]) := by
  unfold compareForeignKeys
  rw [goMap_singleton, goMap_singleton, List.flatMap_singleton]
  have hf : goFind [(f2.Name, f2)] f1.Name = some f2 := by
    rw [← h]
    simp [goFind]
  have hg : goFind [(f1.Name, f1)] f2.Name = some f1 := by
    rw [← h]
    simp [goFind]
  simp only [hf]
  simp [List.append_assoc, hg]

/-- C8: for a same-named foreign key on both sides, the three checks
(referenced table, local column list, referenced column list) run
independently, and a foreign key differing in all three aspects
produces exactly the three differences in order. -/
theorem compareForeignKeys_three_checks (tbl : String) (f1 f2 : ForeignKeyInfo)
    (h : f1.Name = f2.Name) :
    ((compareForeignKeys tbl [f1] [f2]).map Difference.Typ =
      (if f1.ReferencedTable = f2.ReferencedTable then []
        else ["ForeignKeyReferenceMismatch"]) ++
      (if compareStringSlices f1.Columns f2.Columns then []
        else ["ForeignKeyColumnsMismatch"]) ++
      (if compareStringSlices f1.ReferencedColumns f2.ReferencedColumns then []
        else ["ForeignKeyReferencedColumnsMismatch"])) ∧
    (f1.ReferencedTable ≠ f2.ReferencedTable →
     compareStringSlices f1.Columns f2.Columns = false →
     compareStringSlices f1.ReferencedColumns f2.ReferencedColumns = false →
      (compareForeignKeys tbl [f1] [f2]).map Difference.Typ =
        ["ForeignKeyReferenceMismatch", "ForeignKeyColumnsMismatch",
         "ForeignKeyReferencedColumnsMismatch"]) := by
  rw [compareForeignKeys_pair tbl f1 f2 h]
  constructor
  · by_cases h1 : f1.ReferencedTable = f2.ReferencedTable <;>
      by_cases h2 : compareStringSlices f1.Columns f2.Columns <;>
      by_cases h3 : compareStringSlices f1.ReferencedColumns f2.ReferencedColumns <;>
      simp [h1, h2, h3]
  · intro h1 h2 h3
    rw [if_neg h1, if_neg (by simp [h2]), if_neg (by simp [h3])]
    simp

/-- A sample foreign key used by the C8 witness. -/
def fkX : ForeignKeyInfo := ⟨"orders_fk", ["a"], "t1", ["x"]⟩

/-- A sample foreign key of the same name differing in all three
compared aspects. -/
def fkY : ForeignKeyInfo := ⟨"orders_fk", ["b"], "t2", ["y"]⟩

/-- Witness for C8 at two concrete foreign keys differing in all three
aspects. -/
theorem compareForeignKeys_three_checks_witness :
    fkX.Name = fkY.Name ∧ fkX.ReferencedTable ≠ fkY.ReferencedTable ∧
    compareStringSlices fkX.Columns fkY.Columns = false ∧
    compareStringSlices fkX.ReferencedColumns fkY.ReferencedColumns = false ∧
    (compareForeignKeys "t" [fkX] [fkY]).map Difference.Typ =
      ["ForeignKeyReferenceMismatch", "ForeignKeyColumnsMismatch",
       "ForeignKeyReferencedColumnsMismatch"] :=
  ⟨rfl, by decide, by decide, by decide,
   (compareForeignKeys_three_checks "t" fkX fkY rfl).2
     (by decide) (by decide) (by decide)⟩

end PgSchemaCheck
